import Mathlib

/-!
Shallow embedding of `Leonard_FigS10.ipynb`: the function
`calculate_mutation_frequencies` (cell 1) and the function
`plot_mutation_heatmap_v6` (cell 2), together with theorems settling the
specification claims about them.

Modelling conventions:
* CSV input is modelled by `InputCSV`: the header field names plus, for each
  data row, the string value of its `sequence` field (the only field the
  source reads).
* `print`-and-`return` error paths become `none` / `Except.error`; a written
  output file becomes the `some` / `Except.ok` payload.
* Python float division `count / total` is modelled by exact rational
  division (for the arithmetic claims) and the `f-string` formatting `.6f`
  by `fmt6`, which renders the exact fraction `count / total` rounded to six
  decimal places with round-half-to-even (the rounding used by the float
  formatting of Python).
-/

/-- The amino-acid alphabet of the source: `amino_acids`, the twenty symbols
`ACDEFGHIKLMNPQRSTVWY`. -/
def amino_acids : List Char := "ACDEFGHIKLMNPQRSTVWY".toList

/-- A CSV input as seen by `csv.DictReader`: the header `fieldnames` and,
for each data row, the value of its `sequence` field. -/
structure InputCSV where
  fieldnames : List String
  rows : List String
deriving DecidableEq

/-- Python string indexing `s[i]` (all uses in the source are in range;
the default is irrelevant there). -/
def charAt (s : String) (i : Nat) : Char := s.toList.getD i ' '

/-- The rows that survive the per-record length check
`if len(sequence) != sequence_length: continue`. -/
def validRows (input : InputCSV) (base : String) : List String :=
  input.rows.filter (fun s => s.length == base.length)

/-- The counter `total_sequences`: incremented once per row that passes the
length check. -/
def total_sequences (input : InputCSV) (base : String) : Nat :=
  (validRows input base).length

/-- The count `mutation_counts[i][c]`: the number of valid rows `s` with
`s[i] != base_sequence[i]` and `s[i] == c` (the nested `defaultdict`
increments exactly once per such row). -/
def mutation_counts (input : InputCSV) (base : String) (i : Nat) (c : Char) : Nat :=
  (validRows input base).countP
    (fun s => (charAt s i != charAt base i) && (charAt s i == c))

/-- The value `mutation_counts[i].get(aa, 0) / total_sequences` computed for
each output cell. -/
def frequency (input : InputCSV) (base : String) (i : Nat) (aa : Char) : ℚ :=
  (mutation_counts input base i aa : ℚ) / (total_sequences input base : ℚ)

/-- Left-pad the decimal digits of `n` with zeros to width six. -/
def pad6 (n : Nat) : String :=
  let s := toString n
  String.mk (List.replicate (6 - s.length) '0') ++ s

/-- Model of the Python cell formatting: the value
`mutation_counts[i].get(aa, 0) / total_sequences` rendered by `.6f`, i.e. the
fraction `num / den` rounded to six decimal places (ties to even, the
rounding of the float formatting of Python) and printed with six digits after the
decimal point. -/
def fmt6 (num den : Nat) : String :=
  let scaled := num * 1000000
  let t := scaled / den
  let r := scaled % den
  let m := if 2 * r < den then t
    else if den < 2 * r then t + 1
    else if t % 2 = 0 then t else t + 1
  toString (m / 1000000) ++ "." ++ pad6 (m % 1000000)

/-- The header row written first: the label `Position` followed by the
twenty alphabet symbols. -/
def output_header : List String :=
  "Position" :: amino_acids.map (fun c => String.mk [c])

/-- The data row written for position index `i` (0-based internally,
reported as `i + 1`): position label then one formatted frequency per
alphabet symbol. -/
def output_row (input : InputCSV) (base : String) (i : Nat) : List String :=
  toString (i + 1) ::
    amino_acids.map (fun aa =>
      fmt6 (mutation_counts input base i aa) (total_sequences input base))

/-- The function `calculate_mutation_frequencies`: `none` models the early `return` after a
printed error (missing `sequence` column, or zero valid sequences), in which
case no output file is written; `some` is the full content of the written CSV
(header row then one row per reference position). -/
def calculate_mutation_frequencies (input : InputCSV) (base : String) :
    Option (List (List String)) :=
  if "sequence" ∈ input.fieldnames then
    if total_sequences input base = 0 then none
    else some (output_header :: (List.range base.length).map (output_row input base))
  else none

/-- Sum of the 20 frequency cells of the row for position index `i`. -/
def row_freq_sum (input : InputCSV) (base : String) (i : Nat) : ℚ :=
  (amino_acids.map (fun aa => frequency input base i aa)).sum

/-- Number of valid rows whose symbol at position index `i` differs from the
reference. -/
def variants_differing (input : InputCSV) (base : String) (i : Nat) : Nat :=
  (validRows input base).countP (fun s => charAt s i != charAt base i)

/-- Number of valid rows whose symbol at position index `i` differs from the
reference and is one of the 20 alphabet symbols. -/
def variants_differing_canonical (input : InputCSV) (base : String) (i : Nat) : Nat :=
  (validRows input base).countP
    (fun s => (charAt s i != charAt base i) && decide (charAt s i ∈ amino_acids))

/-- The frequency table as read by `plot_mutation_heatmap_v6` after
`df.set_index` on the `Position` column: the list of position labels (the index), the
amino-acid column labels, and the cell value at each (position, column). -/
structure FreqTable where
  positions : List Nat
  cols : List Char
  entry : Nat → Char → ℚ

/-- The cells of `df_selected = df.loc[positions_to_plot]`: the entries of
the selected rows only, row by row. -/
def selected_entries (t : FreqTable) (ps : List Nat) : List ℚ :=
  ps.flatMap (fun p => t.cols.map (fun aa => t.entry p aa))

/-- The entries of `df_selected[df_selected > 0]`: the strictly positive
cells of the selected rows. -/
def positive_entries (t : FreqTable) (ps : List Nat) : List ℚ :=
  (selected_entries t ps).filter (fun q => decide (0 < q))

/-- The bound `vmin_non_zero = df_selected[df_selected > 0].min().min()`, or
`0` when the selection has no positive entry: the least positive entry of
the selected rows. -/
def vmin_non_zero (t : FreqTable) (ps : List Nat) : ℚ :=
  match positive_entries t ps with
  | [] => 0
  | x :: xs => xs.foldl min x

/-- The bound `vmax_non_zero = 1`. -/
def vmax_non_zero : ℚ := 1

/-- The map `colors.Normalize(vmin=vmin, vmax=vmax, clip=True)` applied to `x`:
the input is clipped into `[vmin, vmax]` and then scaled linearly. -/
def norm_non_zero (vmin vmax x : ℚ) : ℚ :=
  (max vmin (min vmax x) - vmin) / (vmax - vmin)

/-- The fill color of a heatmap cell: either the fixed neutral gray
`#808080` chosen for zero frequency, or a point of the gray-to-blue
colormap `cmap_non_zero`, identified by its parameter along the gradient. -/
inductive CellColor where
  | fixedGray
  | gradient (t : ℚ)
deriving DecidableEq

/-- The fill chosen per cell: the fixed gray `#808080` when the frequency is
zero, else the colormap at `norm_non_zero(frequency)`, for the cell of
position `p` and column `aa`, with the scale computed from the rows selected
by `ps`. -/
def cell_color (t : FreqTable) (ps : List Nat) (p : Nat) (aa : Char) : CellColor :=
  if t.entry p aa = 0 then CellColor.fixedGray
  else CellColor.gradient (norm_non_zero (vmin_non_zero t ps) vmax_non_zero (t.entry p aa))

/-- The error outcomes of `plot_mutation_heatmap_v6`, one per `except`
clause of the source: `FileNotFoundError`, `KeyError` (raised by
`df.loc[positions_to_plot]` and carrying the missing position labels, as
pandas raises for list indexers), and the catch-all `Exception`. -/
inductive PlotError where
  | fileNotFound
  | keyError (missing : List Nat)
  | unexpected
deriving DecidableEq

/-- The function `plot_mutation_heatmap_v6`: an `Except.error` models a caught exception
(printed, with no image file written); `Except.ok` is the grid of cell
colors drawn into the saved image, one cell per selected position and
column. -/
def plot_mutation_heatmap_v6 (t : FreqTable) (ps : List Nat) :
    Except PlotError (List (Nat × Char × CellColor)) :=
  let missing := ps.filter (fun p => !(t.positions.contains p))
  if missing = [] then
    Except.ok (ps.flatMap (fun p => t.cols.map (fun aa => (p, aa, cell_color t ps p aa))))
  else Except.error (PlotError.keyError missing)


/-- The alphabet has no repeated symbol. -/
lemma amino_acids_nodup : amino_acids.Nodup := by decide

/-- The alphabet has twenty symbols. -/
lemma amino_acids_length : amino_acids.length = 20 := by decide

/-- Sums of pointwise sums of naturals split. -/
lemma sum_map_add_nat {α : Type} (l : List α) (f g : α → ℕ) :
    (l.map (fun x => f x + g x)).sum = (l.map f).sum + (l.map g).sum := by
  induction l with
  | nil => simp
  | cons a t ih =>
    rw [List.map_cons, List.sum_cons, List.map_cons, List.sum_cons,
      List.map_cons, List.sum_cons, ih]
    omega

/-- Over a duplicate-free list, the indicator of `c = aa` sums to the
indicator of membership. -/
lemma sum_indicator_mem (c : Char) :
    ∀ l : List Char, l.Nodup →
      (l.map (fun aa => if c = aa then (1 : ℕ) else 0)).sum
        = if c ∈ l then 1 else 0 := by
  intro l
  induction l with
  | nil => simp
  | cons a t ih =>
    intro h
    rcases List.nodup_cons.mp h with ⟨ha, ht⟩
    rw [List.map_cons, List.sum_cons]
    by_cases hca : c = a
    · subst hca
      have h0 : (t.map (fun aa => if c = aa then (1 : ℕ) else 0)).sum = 0 := by
        rw [ih ht, if_neg ha]
      simp [h0]
    · simp [hca, ih ht]

/-- Indicator-sum lemma with a Boolean guard `b` in front. -/
lemma sum_indicator_mem_bool (c : Char) (b : Bool) (l : List Char) (hl : l.Nodup) :
    (l.map (fun aa => if b && (c == aa) then (1 : ℕ) else 0)).sum
      = if b && decide (c ∈ l) then 1 else 0 := by
  cases b with
  | false => simp
  | true => simpa using sum_indicator_mem c l hl

/-- Splitting a count over a duplicate-free alphabet: counting the rows whose
character lands on each alphabet symbol separately, and summing, counts the
rows whose character lands anywhere in the alphabet. -/
lemma countP_sum_alphabet (mis : String → Bool) (ch : String → Char)
    (l : List Char) (hl : l.Nodup) :
    ∀ rows : List String,
      (l.map (fun aa => rows.countP (fun s => mis s && (ch s == aa)))).sum
        = rows.countP (fun s => mis s && decide (ch s ∈ l)) := by
  intro rows
  induction rows with
  | nil => simp
  | cons s rs ih =>
    calc (l.map (fun aa => (s :: rs).countP (fun u => mis u && (ch u == aa)))).sum
        = (l.map (fun aa => rs.countP (fun u => mis u && (ch u == aa))
            + (if mis s && (ch s == aa) then 1 else 0))).sum := by
          exact congrArg List.sum (List.map_congr_left (fun aa _ => List.countP_cons _ _ _))
      _ = (l.map (fun aa => rs.countP (fun u => mis u && (ch u == aa)))).sum
            + (l.map (fun aa => if mis s && (ch s == aa) then 1 else 0)).sum := by
          exact sum_map_add_nat l _ _
      _ = rs.countP (fun u => mis u && decide (ch u ∈ l))
            + (if mis s && decide (ch s ∈ l) then 1 else 0) := by
          rw [ih, sum_indicator_mem_bool (ch s) (mis s) l hl]
      _ = (s :: rs).countP (fun u => mis u && decide (ch u ∈ l)) :=
          (List.countP_cons _ _ _).symm

/-- The alphabet-indexed mutation counts of a position sum to the number of
valid rows carrying an alphabet symbol different from the reference there. -/
lemma sum_mutation_counts (input : InputCSV) (base : String) (i : Nat) :
    (amino_acids.map (fun aa => mutation_counts input base i aa)).sum
      = variants_differing_canonical input base i := by
  unfold mutation_counts variants_differing_canonical
  exact countP_sum_alphabet (fun s => charAt s i != charAt base i)
    (fun s => charAt s i) amino_acids amino_acids_nodup (validRows input base)

/-- Division by a common denominator distributes over a mapped sum. -/
lemma sum_map_div_nat (l : List Char) (f : Char → ℕ) (T : ℚ) :
    (l.map (fun aa => (f aa : ℚ) / T)).sum = ((l.map f).sum : ℚ) / T := by
  induction l with
  | nil => simp
  | cons a t ih =>
    rw [List.map_cons, List.sum_cons, List.map_cons, List.sum_cons, ih,
      Nat.cast_add, add_div]

/-- The sum of the frequency cells of a row is the summed counts over the total. -/
lemma row_freq_sum_eq (input : InputCSV) (base : String) (i : Nat) :
    row_freq_sum input base i
      = ((amino_acids.map (fun aa => mutation_counts input base i aa)).sum : ℚ)
          / (total_sequences input base : ℚ) := by
  unfold row_freq_sum frequency
  exact sum_map_div_nat amino_acids _ _

/-- On the success path the calculator returns the header followed by the
per-position rows. -/
lemma calculate_eq_some (input : InputCSV) (base : String)
    (h1 : "sequence" ∈ input.fieldnames) (h2 : total_sequences input base ≠ 0) :
    calculate_mutation_frequencies input base
      = some (output_header :: (List.range base.length).map (output_row input base)) := by
  unfold calculate_mutation_frequencies
  rw [if_pos h1, if_neg h2]

/-- A produced output implies at least one valid sequence was counted. -/
lemma total_pos_of_isSome (input : InputCSV) (base : String)
    (h : (calculate_mutation_frequencies input base).isSome = true) :
    0 < total_sequences input base := by
  unfold calculate_mutation_frequencies at h
  by_cases h1 : "sequence" ∈ input.fieldnames
  · rw [if_pos h1] at h
    by_cases h2 : total_sequences input base = 0
    · rw [if_pos h2] at h
      simp at h
    · omega
  · rw [if_neg h1] at h
    simp at h

/-- A zero count is always rendered as the all-zero cell. -/
lemma fmt6_zero (den : Nat) (h : 0 < den) : fmt6 0 den = "0.000000" := by
  unfold fmt6
  simp only [Nat.zero_mul, Nat.zero_div, Nat.zero_mod, Nat.mul_zero]
  rw [if_pos h]
  rfl

/-- A left fold by `min` is a lower bound of the starting value and every
element folded in. -/
lemma foldl_min_le (xs : List ℚ) :
    ∀ x y : ℚ, y ∈ x :: xs → xs.foldl min x ≤ y := by
  induction xs with
  | nil =>
    intro x y hy
    rw [List.mem_singleton] at hy
    subst hy
    exact le_refl _
  | cons a t ih =>
    intro x y hy
    rw [List.foldl_cons]
    rcases List.mem_cons.mp hy with h1 | h1
    · subst h1
      exact le_trans (ih (min y a) (min y a) (List.mem_cons_self _ _)) (min_le_left _ _)
    · rcases List.mem_cons.mp h1 with h2 | h2
      · subst h2
        exact le_trans (ih (min x y) (min x y) (List.mem_cons_self _ _)) (min_le_right _ _)
      · exact ih (min x a) y (List.mem_cons_of_mem _ h2)

/-- A left fold by `min` returns either the starting value or an element. -/
lemma foldl_min_mem (xs : List ℚ) :
    ∀ x : ℚ, xs.foldl min x ∈ x :: xs := by
  induction xs with
  | nil => intro x; simp
  | cons a t ih =>
    intro x
    rw [List.foldl_cons]
    rcases List.mem_cons.mp (ih (min x a)) with h | h
    · rcases le_total x a with hxa | hxa
      · rw [h, min_eq_left hxa]
        exact List.mem_cons_self _ _
      · rw [h, min_eq_right hxa]
        exact List.mem_cons_of_mem _ (List.mem_cons_self _ _)
    · exact List.mem_cons_of_mem _ (List.mem_cons_of_mem _ h)

/-- The bound `vmin_non_zero` is below every positive entry of the selection. -/
lemma vmin_le_positive (t : FreqTable) (ps : List Nat) :
    ∀ x ∈ positive_entries t ps, vmin_non_zero t ps ≤ x := by
  intro x hx
  unfold vmin_non_zero
  cases hpe : positive_entries t ps with
  | nil => rw [hpe] at hx; cases hx
  | cons a l =>
    rw [hpe] at hx
    exact foldl_min_le l a x hx

/-- When the selection has a positive entry, `vmin_non_zero` is one of them. -/
lemma vmin_mem_positive (t : FreqTable) (ps : List Nat)
    (h : positive_entries t ps ≠ []) :
    vmin_non_zero t ps ∈ positive_entries t ps := by
  unfold vmin_non_zero
  cases hpe : positive_entries t ps with
  | nil => exact absurd hpe h
  | cons a l => exact foldl_min_mem l a

/-- Clipping the input into `[a, 1]` and then scaling linearly is the same as
scaling linearly and clipping the result into `[0, 1]`. -/
lemma norm_clip_eq (a x : ℚ) (ha : a ≤ 1) :
    norm_non_zero a 1 x = max 0 (min 1 ((x - a) / (1 - a))) := by
  unfold norm_non_zero
  rcases eq_or_lt_of_le ha with heq | hlt
  · subst heq
    rw [sub_self, div_zero, div_zero]
    simp
  · have hd : (0 : ℚ) < 1 - a := by linarith
    have hdne : (1 : ℚ) - a ≠ 0 := ne_of_gt hd
    rcases le_total x a with hxa | hax
    · rw [min_eq_right (le_trans hxa ha), max_eq_left hxa, sub_self, zero_div]
      have hnum : (x - a) / (1 - a) ≤ 0 :=
        div_nonpos_of_nonpos_of_nonneg (by linarith) (le_of_lt hd)
      rw [min_eq_right (le_trans hnum zero_le_one), max_eq_left hnum]
    · rcases le_total x 1 with hx1 | h1x
      · rw [min_eq_right hx1, max_eq_right hax]
        have h0 : (0 : ℚ) ≤ (x - a) / (1 - a) :=
          div_nonneg (by linarith) (le_of_lt hd)
        have h1 : (x - a) / (1 - a) ≤ 1 := by
          rw [div_le_one hd]
          linarith
        rw [min_eq_right h1, max_eq_right h0]
      · rw [min_eq_left h1x, max_eq_right ha, div_self hdne]
        have h1 : (1 : ℚ) ≤ (x - a) / (1 - a) := by
          rw [le_div_iff₀ hd]
          linarith
        rw [min_eq_left h1, max_eq_right zero_le_one]

/-- Mapping equal row contents through `flatMap` gives equal lists. -/
lemma flatMap_congr_of_agree {α β : Type} (l : List α) (f g : α → List β)
    (h : ∀ a ∈ l, f a = g a) : l.flatMap f = l.flatMap g := by
  induction l with
  | nil => rfl
  | cons a t ih =>
    rw [List.flatMap_cons, List.flatMap_cons, h a (List.mem_cons_self _ _),
      ih (fun b hb => h b (List.mem_cons_of_mem _ hb))]

/-- The lower bound of the scale depends only on the rows of the selection:
two tables with the same columns that agree on every selected row give the
same `vmin_non_zero`. -/
lemma vmin_depends_on_selection (t u : FreqTable) (ps : List Nat)
    (hcols : u.cols = t.cols)
    (hagree : ∀ p ∈ ps, ∀ aa : Char, u.entry p aa = t.entry p aa) :
    vmin_non_zero u ps = vmin_non_zero t ps := by
  have hsel : selected_entries u ps = selected_entries t ps := by
    unfold selected_entries
    refine flatMap_congr_of_agree ps _ _ (fun p hp => ?_)
    rw [hcols]
    exact List.map_congr_left (fun aa _ => hagree p hp aa)
  unfold vmin_non_zero positive_entries
  rw [hsel]

/-- C1 (counterexample): with reference `"AAAA"` and rows
`["AAAA","ABAA","AABA","AAAA"]`, the written table does not report symbol `B`
with frequency `0.250000` at position 2: `B` is not one of the 20 output
columns, and every data cell of the row written for position 2 is
`"0.000000"`. -/
theorem claim_C1_counterexample :
    'B' ∉ amino_acids ∧
    (output_row ⟨["sequence"], ["AAAA", "ABAA", "AABA", "AAAA"]⟩ "AAAA" 1).tail
      = List.replicate 20 "0.000000" ∧
    "0.250000" ∉ output_row ⟨["sequence"], ["AAAA", "ABAA", "AABA", "AAAA"]⟩ "AAAA" 1 := by
  decide

/-- C1 (amended): in the run with reference `"AAAA"` and rows
`["AAAA","ABAA","AABA","AAAA"]`, the internal counts do record `B` once at
positions 2 and 3 out of 4 counted sequences, but `B` is not an output
column and every written row is all zeros; replacing `B` by the canonical
symbol `C` gives `C = 0.250000` at positions 2 and 3 with all-zero rows at
positions 1 and 4; and appending a row of length 3 leaves the denominator at
4 because that row is skipped. -/
theorem claim_C1_amended :
    mutation_counts ⟨["sequence"], ["AAAA", "ABAA", "AABA", "AAAA"]⟩ "AAAA" 1 'B' = 1 ∧
    mutation_counts ⟨["sequence"], ["AAAA", "ABAA", "AABA", "AAAA"]⟩ "AAAA" 2 'B' = 1 ∧
    total_sequences ⟨["sequence"], ["AAAA", "ABAA", "AABA", "AAAA"]⟩ "AAAA" = 4 ∧
    'B' ∉ amino_acids ∧
    (output_row ⟨["sequence"], ["AAAA", "ABAA", "AABA", "AAAA"]⟩ "AAAA" 0).tail
      = List.replicate 20 "0.000000" ∧
    (output_row ⟨["sequence"], ["AAAA", "ABAA", "AABA", "AAAA"]⟩ "AAAA" 1).tail
      = List.replicate 20 "0.000000" ∧
    (output_row ⟨["sequence"], ["AAAA", "ABAA", "AABA", "AAAA"]⟩ "AAAA" 2).tail
      = List.replicate 20 "0.000000" ∧
    (output_row ⟨["sequence"], ["AAAA", "ABAA", "AABA", "AAAA"]⟩ "AAAA" 3).tail
      = List.replicate 20 "0.000000" ∧
    output_row ⟨["sequence"], ["AAAA", "ACAA", "AACA", "AAAA"]⟩ "AAAA" 1
      = ["2", "0.000000", "0.250000"] ++ List.replicate 18 "0.000000" ∧
    output_row ⟨["sequence"], ["AAAA", "ACAA", "AACA", "AAAA"]⟩ "AAAA" 2
      = ["3", "0.000000", "0.250000"] ++ List.replicate 18 "0.000000" ∧
    (output_row ⟨["sequence"], ["AAAA", "ACAA", "AACA", "AAAA"]⟩ "AAAA" 0).tail
      = List.replicate 20 "0.000000" ∧
    (output_row ⟨["sequence"], ["AAAA", "ACAA", "AACA", "AAAA"]⟩ "AAAA" 3).tail
      = List.replicate 20 "0.000000" ∧
    total_sequences ⟨["sequence"], ["AAAA", "ABAA", "AABA", "AAAA", "AAA"]⟩ "AAAA" = 4 ∧
    mutation_counts ⟨["sequence"], ["AAAA", "ABAA", "AABA", "AAAA", "AAA"]⟩ "AAAA" 1 'B' = 1 := by
  decide

/-- Keeping the right-length rows keeps exactly `N - K` of the `N` rows,
where `K` is the number of wrong-length rows. -/
lemma filter_length_sub (base : String) (rows : List String) :
    (rows.filter (fun s => s.length == base.length)).length
      = rows.length - rows.countP (fun s => !(s.length == base.length)) := by
  induction rows with
  | nil => rfl
  | cons a t ih =>
    have hle : t.countP (fun s : String => !(s.length == base.length)) ≤ t.length :=
      List.countP_le_length _
    cases h : (a.length == base.length) <;>
      simp [List.filter_cons, List.countP_cons, h, ih]
    all_goals omega

/-- C3: of `N` input records of which `K` have a sequence length different
from the reference length, exactly `N - K` are counted, and `N - K` is the
frequency denominator; when the `sequence` column is present, a zero count
yields an error and no output, and a nonzero count yields the output file. -/
theorem claim_C3 (input : InputCSV) (base : String) :
    total_sequences input base
        = input.rows.length - input.rows.countP (fun s => !(s.length == base.length)) ∧
    (∀ i aa, frequency input base i aa
        = (mutation_counts input base i aa : ℚ)
            / ((input.rows.length
                - input.rows.countP (fun s => !(s.length == base.length)) : ℕ) : ℚ)) ∧
    ("sequence" ∈ input.fieldnames → total_sequences input base = 0 →
      calculate_mutation_frequencies input base = none) ∧
    ("sequence" ∈ input.fieldnames → total_sequences input base ≠ 0 →
      (calculate_mutation_frequencies input base).isSome = true) := by
  have hNK : total_sequences input base
      = input.rows.length - input.rows.countP (fun s => !(s.length == base.length)) :=
    filter_length_sub base input.rows
  refine ⟨hNK, ?_, ?_, ?_⟩
  · intro i aa
    unfold frequency
    rw [hNK]
  · intro h1 h2
    unfold calculate_mutation_frequencies
    rw [if_pos h1, if_pos h2]
  · intro h1 h2
    rw [calculate_eq_some input base h1 h2]
    rfl

/-- C3 (witness): two records of which one has wrong length give a count of
one; a single wrong-length record gives no output. -/
theorem claim_C3_witness :
    total_sequences ⟨["sequence"], ["AAAA", "AAA"]⟩ "AAAA"
        = (["AAAA", "AAA"] : List String).length
            - (["AAAA", "AAA"] : List String).countP (fun s => !(s.length == "AAAA".length)) ∧
    calculate_mutation_frequencies ⟨["sequence"], ["AAA"]⟩ "AAAA" = none :=
  ⟨(claim_C3 ⟨["sequence"], ["AAAA", "AAA"]⟩ "AAAA").1,
   (claim_C3 ⟨["sequence"], ["AAA"]⟩ "AAAA").2.2.1 (by decide) (by decide)⟩

/-- C5: when the header has no `sequence` column the calculator reports an
error and returns `none` before looking at any record: the result is `none`
for the given rows and for every other list of rows under the same header. -/
theorem claim_C5 (input : InputCSV) (base : String)
    (h : "sequence" ∉ input.fieldnames) :
    calculate_mutation_frequencies input base = none ∧
    ∀ rows2 : List String,
      calculate_mutation_frequencies ⟨input.fieldnames, rows2⟩ base = none := by
  constructor
  · unfold calculate_mutation_frequencies
    rw [if_neg h]
  · intro rows2
    unfold calculate_mutation_frequencies
    rw [if_neg h]

/-- C5 (witness): a header spelling the column `seq` produces no output. -/
theorem claim_C5_witness :
    calculate_mutation_frequencies ⟨["seq"], ["AAAA"]⟩ "AAAA" = none :=
  (claim_C5 ⟨["seq"], ["AAAA"]⟩ "AAAA" (by decide)).1

/-- C8: the calculator is deterministic: equal input file contents and equal
reference sequences give identical output tables. -/
theorem claim_C8 (input1 input2 : InputCSV) (base1 base2 : String)
    (h1 : input1 = input2) (h2 : base1 = base2) :
    calculate_mutation_frequencies input1 base1
      = calculate_mutation_frequencies input2 base2 := by
  rw [h1, h2]

/-- C8 (witness): two runs on the same concrete input agree. -/
theorem claim_C8_witness :
    calculate_mutation_frequencies ⟨["sequence"], ["AAAA"]⟩ "AAAA"
      = calculate_mutation_frequencies ⟨["sequence"], ["AAAA"]⟩ "AAAA" :=
  claim_C8 ⟨["sequence"], ["AAAA"]⟩ ⟨["sequence"], ["AAAA"]⟩ "AAAA" "AAAA" rfl rfl

/-- With at least one valid sequence, the summed frequencies of a row times
the total recover the number of alphabet-symbol mismatches at that position. -/
lemma freq_row_identity (input : InputCSV) (base : String) (i : Nat)
    (h : 0 < total_sequences input base) :
    row_freq_sum input base i * (total_sequences input base : ℚ)
      = (variants_differing_canonical input base i : ℚ) := by
  have hT : ((total_sequences input base : ℕ) : ℚ) ≠ 0 :=
    Nat.cast_ne_zero.mpr (Nat.pos_iff_ne_zero.mp h)
  rw [row_freq_sum_eq, div_mul_cancel₀ _ hT]
  exact_mod_cast sum_mutation_counts input base i

/-- C2 (amended): for every position and every input with at least one
valid-length record, the sum of the 20 frequency cells of the row multiplied by
the number of valid sequences equals the number of valid variant sequences
whose symbol at that position differs from the reference and is one of the
20 alphabet symbols. -/
theorem claim_C2 (input : InputCSV) (base : String) (i : Nat)
    (h : 0 < total_sequences input base) :
    row_freq_sum input base i * (total_sequences input base : ℚ)
      = (variants_differing_canonical input base i : ℚ) :=
  freq_row_identity input base i h

/-- C2 (witness): the amended identity at a concrete run. -/
theorem claim_C2_witness :
    row_freq_sum ⟨["sequence"], ["AAAA", "ACAA", "AACA", "AAAA"]⟩ "AAAA" 1
        * (total_sequences ⟨["sequence"], ["AAAA", "ACAA", "AACA", "AAAA"]⟩ "AAAA" : ℚ)
      = (variants_differing_canonical
          ⟨["sequence"], ["AAAA", "ACAA", "AACA", "AAAA"]⟩ "AAAA" 1 : ℚ) :=
  claim_C2 ⟨["sequence"], ["AAAA", "ACAA", "AACA", "AAAA"]⟩ "AAAA" 1 (by decide)

/-- C2 (counterexample): with reference `"A"` and the single valid row
`"B"`, one variant differs from the reference at position 1, yet every
frequency cell of that row is zero, because `B` has no output column: the
claimed identity with the plain number of differing variants fails. -/
theorem claim_C2_counterexample :
    0 < total_sequences ⟨["sequence"], ["B"]⟩ "A" ∧
    variants_differing ⟨["sequence"], ["B"]⟩ "A" 0 = 1 ∧
    row_freq_sum ⟨["sequence"], ["B"]⟩ "A" 0
        * (total_sequences ⟨["sequence"], ["B"]⟩ "A" : ℚ)
      ≠ (variants_differing ⟨["sequence"], ["B"]⟩ "A" 0 : ℚ) := by
  refine ⟨by decide, by decide, ?_⟩
  rw [row_freq_sum_eq]
  have h1 : (amino_acids.map (fun aa =>
      mutation_counts ⟨["sequence"], ["B"]⟩ "A" 0 aa)).sum = 0 := by decide
  have h2 : total_sequences ⟨["sequence"], ["B"]⟩ "A" = 1 := by decide
  have h3 : variants_differing ⟨["sequence"], ["B"]⟩ "A" 0 = 1 := by decide
  rw [h1, h2, h3]
  norm_num

/-- C9: a valid-length row whose symbol at position `i` differs from the
reference but is not an alphabet symbol is counted in the internal map at
that symbol, contributes to the denominator, matches no output column, and
the written row accounts exactly for the alphabet-symbol mismatches. -/
theorem claim_C9 (input : InputCSV) (base : String) (s : String) (i : Nat)
    (hs : s ∈ input.rows) (hlen : s.length = base.length)
    (hmis : charAt s i ≠ charAt base i) (hnc : charAt s i ∉ amino_acids) :
    s ∈ validRows input base ∧
    0 < mutation_counts input base i (charAt s i) ∧
    (∀ aa ∈ amino_acids, aa ≠ charAt s i) ∧
    row_freq_sum input base i * (total_sequences input base : ℚ)
      = (variants_differing_canonical input base i : ℚ) := by
  have hmem : s ∈ validRows input base := by
    unfold validRows
    rw [List.mem_filter]
    exact ⟨hs, by simp [hlen]⟩
  have htot : 0 < total_sequences input base := List.length_pos_of_mem hmem
  refine ⟨hmem, ?_, ?_, freq_row_identity input base i htot⟩
  · unfold mutation_counts
    refine List.countP_pos_iff.mpr ⟨s, hmem, ?_⟩
    simp [hmis]
  · intro aa haa heq
    exact hnc (heq ▸ haa)

/-- C9 (witness): reference `"A"`, row `"B"`: the non-alphabet mismatch is
counted internally while the output columns account for no mismatch. -/
theorem claim_C9_witness :
    0 < mutation_counts ⟨["sequence"], ["B"]⟩ "A" 0 (charAt "B" 0) ∧
    row_freq_sum ⟨["sequence"], ["B"]⟩ "A" 0
        * (total_sequences ⟨["sequence"], ["B"]⟩ "A" : ℚ)
      = (variants_differing_canonical ⟨["sequence"], ["B"]⟩ "A" 0 : ℚ) :=
  ⟨(claim_C9 ⟨["sequence"], ["B"]⟩ "A" "B" 0
      (by decide) (by decide) (by decide) (by decide)).2.1,
   (claim_C9 ⟨["sequence"], ["B"]⟩ "A" "B" 0
      (by decide) (by decide) (by decide) (by decide)).2.2.2⟩

/-- C10: on every successful run (an output table is produced) each written
frequency lies in `[0, 1]` and the 20 frequencies of a row sum to at most 1. -/
theorem claim_C10 (input : InputCSV) (base : String)
    (h : (calculate_mutation_frequencies input base).isSome = true)
    (i : Nat) (aa : Char) :
    0 ≤ frequency input base i aa ∧ frequency input base i aa ≤ 1 ∧
    row_freq_sum input base i ≤ 1 := by
  have htot : 0 < total_sequences input base := total_pos_of_isSome input base h
  have hTpos : (0 : ℚ) < (total_sequences input base : ℚ) := by exact_mod_cast htot
  have hcount : ∀ c, mutation_counts input base i c ≤ total_sequences input base := by
    intro c
    unfold mutation_counts total_sequences
    exact List.countP_le_length _
  refine ⟨?_, ?_, ?_⟩
  · exact div_nonneg (Nat.cast_nonneg _) (Nat.cast_nonneg _)
  · unfold frequency
    rw [div_le_one hTpos]
    exact_mod_cast hcount aa
  · rw [row_freq_sum_eq, div_le_one hTpos]
    have hvle : variants_differing_canonical input base i ≤ total_sequences input base := by
      unfold variants_differing_canonical total_sequences
      exact List.countP_le_length _
    have hsum : (amino_acids.map (fun c => mutation_counts input base i c)).sum
        ≤ total_sequences input base := by
      rw [sum_mutation_counts input base i]
      exact hvle
    exact_mod_cast hsum

/-- C10 (witness): the bounds at a concrete successful run. -/
theorem claim_C10_witness :
    0 ≤ frequency ⟨["sequence"], ["AAAA", "ACAA", "AACA", "AAAA"]⟩ "AAAA" 1 'C' ∧
    frequency ⟨["sequence"], ["AAAA", "ACAA", "AACA", "AAAA"]⟩ "AAAA" 1 'C' ≤ 1 ∧
    row_freq_sum ⟨["sequence"], ["AAAA", "ACAA", "AACA", "AAAA"]⟩ "AAAA" 1 ≤ 1 :=
  claim_C10 ⟨["sequence"], ["AAAA", "ACAA", "AACA", "AAAA"]⟩ "AAAA" (by decide) 1 'C'

/-- C4: every successful run writes the header followed by exactly one data
row per reference position; the row for position index `i` is labelled
`i + 1` and carries exactly 20 data cells, one per alphabet symbol in the
fixed order `ACDEFGHIKLMNPQRSTVWY`, each cell the fraction count over total
formatted to six decimals; a symbol with no recorded count is written as
`0.000000`. -/
theorem claim_C4 (input : InputCSV) (base : String)
    (h1 : "sequence" ∈ input.fieldnames) (h2 : total_sequences input base ≠ 0) :
    calculate_mutation_frequencies input base
      = some (output_header :: (List.range base.length).map (output_row input base)) ∧
    ((List.range base.length).map (output_row input base)).length = base.length ∧
    output_header = "Position" :: amino_acids.map (fun c => String.mk [c]) ∧
    amino_acids = "ACDEFGHIKLMNPQRSTVWY".toList ∧
    (∀ i, i < base.length →
      ((List.range base.length).map (output_row input base)).getD i []
        = toString (i + 1) :: amino_acids.map (fun aa =>
            fmt6 (mutation_counts input base i aa) (total_sequences input base))) ∧
    (∀ i, i < base.length →
      (((List.range base.length).map (output_row input base)).getD i []).length = 21) ∧
    (∀ i aa, mutation_counts input base i aa = 0 →
      fmt6 (mutation_counts input base i aa) (total_sequences input base)
        = "0.000000") := by
  have hget : ∀ i, i < base.length →
      ((List.range base.length).map (output_row input base)).getD i []
        = output_row input base i := by
    intro i hi
    have hlen2 : i < ((List.range base.length).map (output_row input base)).length := by
      rw [List.length_map, List.length_range]
      exact hi
    rw [List.getD_eq_getElem _ _ hlen2]
    rw [List.getElem_map, List.getElem_range]
  refine ⟨calculate_eq_some input base h1 h2, ?_, rfl, rfl, ?_, ?_, ?_⟩
  · rw [List.length_map, List.length_range]
  · intro i hi
    rw [hget i hi]
    rfl
  · intro i hi
    rw [hget i hi]
    unfold output_row
    rw [List.length_cons, List.length_map, amino_acids_length]
  · intro i aa hc
    rw [hc]
    exact fmt6_zero _ (Nat.pos_of_ne_zero h2)

/-- C4 (witness): the shape of the table at a concrete successful run. -/
theorem claim_C4_witness :
    calculate_mutation_frequencies ⟨["sequence"], ["AAAA", "ACAA", "AACA", "AAAA"]⟩ "AAAA"
      = some (output_header
          :: (List.range ("AAAA" : String).length).map
              (output_row ⟨["sequence"], ["AAAA", "ACAA", "AACA", "AAAA"]⟩ "AAAA")) ∧
    (((List.range ("AAAA" : String).length).map
        (output_row ⟨["sequence"], ["AAAA", "ACAA", "AACA", "AAAA"]⟩ "AAAA")).getD 1 []).length
      = 21 :=
  ⟨(claim_C4 ⟨["sequence"], ["AAAA", "ACAA", "AACA", "AAAA"]⟩ "AAAA"
      (by decide) (by decide)).1,
   (claim_C4 ⟨["sequence"], ["AAAA", "ACAA", "AACA", "AAAA"]⟩ "AAAA"
      (by decide) (by decide)).2.2.2.2.2.1 1 (by decide)⟩

/-- C6: within any selected subset of positions, a zero-frequency cell gets
the fixed mid-gray fill; a non-zero cell gets the gray-to-blue gradient at
the linear position of its frequency between the lower bound of the scale and 1,
clipped into that range; and the lower bound is the least strictly positive
frequency of the selected subset alone: it bounds every positive entry of
the selection, is itself one of them when any exists, and is unchanged by
altering the table outside the selected rows. -/
theorem claim_C6 (t : FreqTable) (ps : List Nat) (p : Nat) (aa : Char)
    (hv : vmin_non_zero t ps ≤ 1) :
    (t.entry p aa = 0 → cell_color t ps p aa = CellColor.fixedGray) ∧
    (t.entry p aa ≠ 0 → cell_color t ps p aa
        = CellColor.gradient (max 0 (min 1
            ((t.entry p aa - vmin_non_zero t ps) / (1 - vmin_non_zero t ps))))) ∧
    (∀ x ∈ positive_entries t ps, vmin_non_zero t ps ≤ x) ∧
    (positive_entries t ps ≠ [] →
      vmin_non_zero t ps ∈ positive_entries t ps) ∧
    (∀ u : FreqTable, u.cols = t.cols →
      (∀ q ∈ ps, ∀ c : Char, u.entry q c = t.entry q c) →
      vmin_non_zero u ps = vmin_non_zero t ps) := by
  refine ⟨?_, ?_, vmin_le_positive t ps, vmin_mem_positive t ps,
    fun u hcols hagree => vmin_depends_on_selection t u ps hcols hagree⟩
  · intro h0
    unfold cell_color
    rw [if_pos h0]
  · intro hne
    unfold cell_color
    rw [if_neg hne]
    unfold vmax_non_zero
    rw [norm_clip_eq (vmin_non_zero t ps) (t.entry p aa) hv]

/-- C6 (witness): a two-column table selected at one position: the zero cell
is gray and the positive cell sits on the gradient. -/
theorem claim_C6_witness :
    cell_color ⟨[2, 3], ['A', 'C'], fun p c => if p = 2 ∧ c = 'C' then 1 else 0⟩ [2] 2 'A'
      = CellColor.fixedGray ∧
    cell_color ⟨[2, 3], ['A', 'C'], fun p c => if p = 2 ∧ c = 'C' then 1 else 0⟩ [2] 2 'C'
      = CellColor.gradient (max 0 (min 1
          ((FreqTable.entry ⟨[2, 3], ['A', 'C'], fun p c => if p = 2 ∧ c = 'C' then 1 else 0⟩ 2 'C'
              - vmin_non_zero ⟨[2, 3], ['A', 'C'], fun p c => if p = 2 ∧ c = 'C' then 1 else 0⟩ [2])
            / (1 - vmin_non_zero
                ⟨[2, 3], ['A', 'C'], fun p c => if p = 2 ∧ c = 'C' then 1 else 0⟩ [2])))) :=
  ⟨(claim_C6 ⟨[2, 3], ['A', 'C'], fun p c => if p = 2 ∧ c = 'C' then 1 else 0⟩ [2] 2 'A'
      (by decide)).1 (by decide),
   (claim_C6 ⟨[2, 3], ['A', 'C'], fun p c => if p = 2 ∧ c = 'C' then 1 else 0⟩ [2] 2 'C'
      (by decide)).2.1 (by decide)⟩

/-- C7: when some requested position is absent from the table index, the
plot function ends in the caught `KeyError` carrying the missing positions
(the absent one among them), and no image is produced: the result is an
`Except.error`, never an `Except.ok`. -/
theorem claim_C7 (t : FreqTable) (ps : List Nat) (p : Nat)
    (hp : p ∈ ps) (hmiss : p ∉ t.positions) :
    plot_mutation_heatmap_v6 t ps
        = Except.error (PlotError.keyError
            (ps.filter (fun q => !(t.positions.contains q)))) ∧
    p ∈ ps.filter (fun q => !(t.positions.contains q)) ∧
    ∀ img, plot_mutation_heatmap_v6 t ps ≠ Except.ok img := by
  have hmem : p ∈ ps.filter (fun q => !(t.positions.contains q)) := by
    rw [List.mem_filter]
    refine ⟨hp, ?_⟩
    simp [hmiss]
  have hmissing : ps.filter (fun q => !(t.positions.contains q)) ≠ [] := by
    intro hnil
    rw [hnil] at hmem
    cases hmem
  have herr : plot_mutation_heatmap_v6 t ps
      = Except.error (PlotError.keyError
          (ps.filter (fun q => !(t.positions.contains q)))) := by
    unfold plot_mutation_heatmap_v6
    rw [if_neg hmissing]
  refine ⟨herr, hmem, ?_⟩
  intro img hok
  rw [herr] at hok
  cases hok

/-- C7 (witness): requesting position 5 of a table indexed by 2 and 3. -/
theorem claim_C7_witness :
    plot_mutation_heatmap_v6 ⟨[2, 3], ['A'], fun _ _ => 0⟩ [2, 5]
        = Except.error (PlotError.keyError
            ([2, 5].filter (fun q =>
              !(FreqTable.positions ⟨[2, 3], ['A'], fun _ _ => 0⟩).contains q))) ∧
    5 ∈ [2, 5].filter (fun q =>
          !(FreqTable.positions ⟨[2, 3], ['A'], fun _ _ => 0⟩).contains q) :=
  ⟨(claim_C7 ⟨[2, 3], ['A'], fun _ _ => 0⟩ [2, 5] 5 (by decide) (by decide)).1,
   (claim_C7 ⟨[2, 3], ['A'], fun _ _ => 0⟩ [2, 5] 5 (by decide) (by decide)).2.1⟩
